import Mathlib

set_option maxHeartbeats 1000000

/-!
Shallow embedding of the algorithmic core of the repository: the
moving-average and oscillator kernels (calculateEMA, calculateSMA,
calculateMACD, calculateRSI and their full-history variants), the
candlestick pattern detector, the indicator facade of the sparkline chart
component, and the rate-limited request scheduler.

JS numbers are modelled as rationals; JS null/undefined is modelled with
Option.  Each definition mirrors the corresponding source function.
-/

/-- Rounding to two decimal places, modelling parseFloat(x.toFixed(2)). -/
def roundTo2 (x : ℚ) : ℚ := (round (x * 100) : ℚ) / 100

/-- A price/volume bar, mirroring the Candle type of the source. -/
structure Candle where
  time : ℤ
  open_ : ℚ
  high : ℚ
  low : ℚ
  close : ℚ
  volume : ℚ
deriving DecidableEq

instance : Inhabited Candle := ⟨⟨0, 0, 0, 0, 0, 0⟩⟩

/-- Incremental window-update loop of calculateSMA: each step removes the
value leaving the window, adds the value entering it, and emits the mean. -/
def smaSteps (p : ℚ) : ℚ → List (ℚ × ℚ) → List ℚ
  | _, [] => []
  | sum, (leaving, entering) :: rest =>
      let s := sum - leaving + entering
      s / p :: smaSteps p s rest

/-- calculateSMA of SparklineChart.tsx: null-padded trailing simple moving
average computed with a running sum. -/
def calculateSMA (data : List ℚ) (period : ℕ) : List (Option ℚ) :=
  if data.length < period then List.replicate data.length none
  else
    let sum0 := (data.take period).sum
    List.replicate (period - 1) none ++
      (some (sum0 / period) ::
        (smaSteps period sum0 (data.zip (data.drop period))).map some)

/-- Recurrence loop of calculateEMA: each new value is
price * k + previous * (1 - k). -/
def emaFrom (k : ℚ) : ℚ → List ℚ → List ℚ
  | _, [] => []
  | prev, price :: rest =>
      let e := price * k + prev * (1 - k)
      e :: emaFrom k e rest

/-- calculateEMA of the source (identical in part_000 and in
SparklineChart.tsx): empty when the input is shorter than the period,
otherwise the SMA of the first period values followed by the EMA
recurrence over the remaining values. -/
def calculateEMA (prices : List ℚ) (period : ℕ) : List ℚ :=
  if prices.length < period then []
  else
    let k : ℚ := 2 / ((period : ℚ) + 1)
    let first : ℚ := (prices.take period).sum / period
    first :: emaFrom k first (prices.drop period)

/-- Consecutive price changes: change at i is prices[i+1] - prices[i]. -/
def diffs (prices : List ℚ) : List ℚ :=
  (prices.zip prices.tail).map fun pr => pr.2 - pr.1

/-- Seed accumulation loop of calculateRSI: gains and losses of the first
period changes accumulated separately, losses as positive magnitudes. -/
def rsiSeed (changes : List ℚ) : ℚ × ℚ :=
  changes.foldl
    (fun gl c => if 0 < c then (gl.1 + c, gl.2) else (gl.1, gl.2 - c)) (0, 0)

/-- One smoothing step of Wilder's formula, applied to the pair
(avgGain, avgLoss), as in calculateRSI and calculateRSIHistory. -/
def rsiStepGL (period : ℕ) (gl : ℚ × ℚ) (change : ℚ) : ℚ × ℚ :=
  ((gl.1 * ((period : ℚ) - 1) + (if 0 < change then change else 0)) / period,
   (gl.2 * ((period : ℚ) - 1) + (if change < 0 then -change else 0)) / period)

/-- calculateRSI of part_000: latest-value RSI over the closes of the given
candles, rounded to two decimals, with the zero-average-loss special case. -/
def calculateRSI (candles : List Candle) (period : ℕ) : Option ℚ :=
  if candles.length ≤ period then none
  else
    let prices := candles.map Candle.close
    let cs := diffs prices
    let seed := rsiSeed (cs.take period)
    let final := (cs.drop period).foldl (rsiStepGL period)
      (seed.1 / period, seed.2 / period)
    if final.2 = 0 then some 100
    else some (roundTo2 (100 - 100 / (1 + final.1 / final.2)))

/-- Helper getRSI of calculateRSIHistory in SparklineChart.tsx. -/
def getRSI (g l : ℚ) : ℚ := if l = 0 then 100 else 100 - 100 / (1 + g / l)

/-- calculateRSIHistory of SparklineChart.tsx: the full-history RSI series,
null-padded for the first period positions, one entry per smoothing state. -/
def calculateRSIHistory (prices : List ℚ) (period : ℕ) : List (Option ℚ) :=
  if prices.length ≤ period then List.replicate prices.length none
  else
    let cs := diffs prices
    let seed := rsiSeed (cs.take period)
    List.replicate period none ++
      ((cs.drop period).scanl (rsiStepGL period)
          (seed.1 / period, seed.2 / period)).map
        (fun gl => some (getRSI gl.1 gl.2))

/-- Latest-value MACD result of part_000, fields rounded to two decimals. -/
structure MACDResult where
  macdLine : ℚ
  signalLine : ℚ
  histogram : ℚ
deriving DecidableEq

/-- calculateMACD of part_000: latest MACD line, signal line and histogram
over the closes, or none when fewer than slow + signal bars are given. -/
def calculateMACD (candles : List Candle)
    (fastPeriod slowPeriod signalPeriod : ℕ) : Option MACDResult :=
  let prices := candles.map Candle.close
  if prices.length < slowPeriod + signalPeriod then none
  else
    let emaFast := calculateEMA prices fastPeriod
    let emaSlow := calculateEMA prices slowPeriod
    let macdLineValues :=
      List.zipWith (fun f s => f - s)
        (emaFast.drop (slowPeriod - fastPeriod)) emaSlow
    if macdLineValues.length < signalPeriod then none
    else
      let signalLineValues := calculateEMA macdLineValues signalPeriod
      match macdLineValues.getLast?, signalLineValues.getLast? with
      | some lm, some ls => some ⟨roundTo2 lm, roundTo2 ls, roundTo2 (lm - ls)⟩
      | _, _ => none

/-- Full-history MACD series of calculateMACDHistory in SparklineChart.tsx. -/
structure MACDHistory where
  macdLine : List (Option ℚ)
  signalLine : List (Option ℚ)
  histogram : List (Option ℚ)

/-- calculateMACDHistory of SparklineChart.tsx: aligned MACD line, signal
line and histogram series, left-padded with null so index i in each output
corresponds to bar i. -/
def calculateMACDHistory (prices : List ℚ)
    (fastPeriod slowPeriod signalPeriod : ℕ) : MACDHistory :=
  let emaFast := calculateEMA prices fastPeriod
  let emaSlow := calculateEMA prices slowPeriod
  let macdLineValues :=
    List.zipWith (fun f s => f - s)
      (emaFast.drop (slowPeriod - fastPeriod)) emaSlow
  let signalLineValues := calculateEMA macdLineValues signalPeriod
  let histogramValues :=
    List.zipWith (fun m s => m - s)
      (macdLineValues.drop (signalPeriod - 1)) signalLineValues
  let macdOffset := slowPeriod - 1
  let signalOffset := macdOffset + signalPeriod - 1
  { macdLine := List.replicate macdOffset none ++ macdLineValues.map some,
    signalLine := List.replicate signalOffset none ++ signalLineValues.map some,
    histogram := List.replicate signalOffset none ++ histogramValues.map some }

/-- Kind of a detected candlestick pattern. -/
inductive PatternKind
  | doji
  | bullishEngulfing
  | bearishEngulfing
  | hammer
deriving DecidableEq

/-- Display anchor of a detected pattern. -/
inductive AnchorPos
  | top
  | bottom
deriving DecidableEq

/-- A detected candlestick pattern mark, mirroring DetectedPattern of
SparklineChart.tsx (the presentation-only short label and color are
determined by the kind and omitted). -/
structure DetectedPattern where
  index : ℕ
  kind : PatternKind
  position : AnchorPos
deriving DecidableEq

/-- Patterns pushed for one bar index by the forEach body of
detectCandlestickPatterns: doji, bullish engulfing, bearish engulfing and
hammer checks, in source order, each skipped for i < 2. -/
def patternsAt (candles : List Candle) (i : ℕ) : List DetectedPattern :=
  if i < 2 then []
  else
    let candle := candles.getD i default
    let prev := candles.getD (i - 1) default
    let bodySize := |candle.close - candle.open_|
    let range := candle.high - candle.low
    (if 0 < range ∧ bodySize / range < 8 / 100 then
        [⟨i, PatternKind.doji, AnchorPos.top⟩] else []) ++
    (if prev.close < prev.open_ ∧ candle.open_ < candle.close ∧
        candle.open_ < prev.close ∧ prev.open_ < candle.close then
        [⟨i, PatternKind.bullishEngulfing, AnchorPos.bottom⟩] else []) ++
    (if prev.open_ < prev.close ∧ candle.close < candle.open_ ∧
        prev.close < candle.open_ ∧ candle.close < prev.open_ then
        [⟨i, PatternKind.bearishEngulfing, AnchorPos.top⟩] else []) ++
    (let bodyHigh := max candle.open_ candle.close
     let bodyLow := min candle.open_ candle.close
     let lowerShadow := bodyLow - candle.low
     let upperShadow := candle.high - bodyHigh
     if prev.close < (candles.getD (i - 2) default).close ∧ 0 < bodySize ∧
        bodySize * 2 < lowerShadow ∧ upperShadow < bodySize * (1 / 2) then
        [⟨i, PatternKind.hammer, AnchorPos.bottom⟩] else [])

/-- detectCandlestickPatterns of SparklineChart.tsx: scans every bar index,
emitting the pattern marks matched at each index ≥ 2. -/
def detectCandlestickPatterns (candles : List Candle) : List DetectedPattern :=
  if candles.length < 3 then []
  else (List.range candles.length).flatMap (patternsAt candles)

/-- JS array indexing into a null-holding array: out-of-range access yields
undefined; both null and undefined are modelled as none. -/
def jsGet (l : List (Option ℚ)) (i : ℕ) : Option ℚ := l[i]?.join

/-- Buy-crossover entry at index i of the useMemo loop in
SparklineChart.tsx: prices[i] when the MACD line crossed above the signal
line between i-1 and i and all four values are non-null, else null. -/
def buySignalAt (prices : List ℚ) (mh : MACDHistory) (i : ℕ) : Option ℚ :=
  if i = 0 then none
  else
    match jsGet mh.macdLine (i - 1), jsGet mh.macdLine i,
          jsGet mh.signalLine (i - 1), jsGet mh.signalLine i with
    | some prevMacd, some currMacd, some prevSignal, some currSignal =>
        if prevMacd ≤ prevSignal ∧ currSignal < currMacd then
          some (prices.getD i 0)
        else none
    | _, _, _, _ => none

/-- Sell-crossover entry at index i, mirror of buySignalAt. -/
def sellSignalAt (prices : List ℚ) (mh : MACDHistory) (i : ℕ) : Option ℚ :=
  if i = 0 then none
  else
    match jsGet mh.macdLine (i - 1), jsGet mh.macdLine i,
          jsGet mh.signalLine (i - 1), jsGet mh.signalLine i with
    | some prevMacd, some currMacd, some prevSignal, some currSignal =>
        if prevSignal ≤ prevMacd ∧ currMacd < currSignal then
          some (prices.getD i 0)
        else none
    | _, _, _, _ => none

/-- Result of the useMemo indicator facade in SparklineChart.tsx, together
with the volume SMA series it computes internally. -/
structure FacadeResult where
  buySignals : List (Option ℚ)
  sellSignals : List (Option ℚ)
  pointRadii : List ℚ
  macdHistory : MACDHistory
  rsiHistory : List (Option ℚ)
  volumeSma : List (Option ℚ)
  detectedPatterns : List DetectedPattern

/-- The useMemo indicator facade of SparklineChart.tsx: below 35 bars every
series is empty; otherwise the full-history indicators, crossover signals,
volume-anomaly point radii and pattern marks are computed over the closes
and volumes. -/
def indicatorFacade (candles : List Candle) : FacadeResult :=
  if candles.length < 35 then
    ⟨[], [], [], ⟨[], [], []⟩, [], [], []⟩
  else
    let prices := candles.map Candle.close
    let volumes := candles.map Candle.volume
    let mh := calculateMACDHistory prices 12 26 9
    let rsiH := calculateRSIHistory prices 14
    let pats := detectCandlestickPatterns candles
    let buy := (List.range prices.length).map (buySignalAt prices mh)
    let sell := (List.range prices.length).map (sellSignalAt prices mh)
    let volSma := calculateSMA volumes 20
    let radii := (List.range candles.length).map fun i =>
      match jsGet volSma i with
      | some s =>
          if s * (7 / 4) < (candles.getD i default).volume then (5 / 2 : ℚ)
          else 0
      | none => 0
    ⟨buy, sell, radii, mh, rsiH, volSma, pats⟩

/-- A task submitted to the request scheduler: an opaque operation modelled
by how long it runs and the outcome it produces. -/
structure STask (ε α : Type) where
  duration : ℕ
  result : Except ε α

/-- One executed task as observed from outside: when it started draining,
when its outcome was delivered, and the outcome forwarded to its handle. -/
structure TaskRun (ε α : Type) where
  start : ℕ
  finish : ℕ
  outcome : Except ε α

/-- MIN_INTERVAL of part_003: minimum pacing interval in milliseconds. -/
def MIN_INTERVAL : ℕ := 2100

/-- Drain loop of processQueue in part_003, as a timed simulation: the head
task starts immediately, its outcome is delivered after its own duration,
and the next evaluation of the queue happens only a full interval after the
outcome (await apiCall, then setTimeout(processQueue, MIN_INTERVAL)). -/
def processQueue {ε α : Type} (interval : ℕ) :
    ℕ → List (STask ε α) → List (TaskRun ε α)
  | _, [] => []
  | now, task :: rest =>
      ⟨now, now + task.duration, task.result⟩ ::
        processQueue interval (now + task.duration + interval) rest

/-- scheduleApiCall of part_003 for a burst of submissions: all tasks are
queued in submission order before the drain loop starts at time 0. -/
def scheduleAll {ε α : Type} (tasks : List (STask ε α)) : List (TaskRun ε α) :=
  processQueue MIN_INTERVAL 0 tasks

/-- Modelled from the spec: the seed and Wilder-smoothed average gain and
loss exactly as section 4.2 words them — seed averages are the means of the
positive parts (respectively negative magnitudes) of the first period
changes, then avg = (avg*(period-1) + current)/period for each later
change.  Used to compare the source recurrence against the spec text. -/
def rsiSpecAverages (prices : List ℚ) (period : ℕ) : ℚ × ℚ :=
  let cs := diffs prices
  let seedGain := ((cs.take period).map fun c => max c 0).sum / period
  let seedLoss := ((cs.take period).map fun c => max (-c) 0).sum / period
  (cs.drop period).foldl
    (fun gl c =>
      ((gl.1 * ((period : ℚ) - 1) + max c 0) / period,
       (gl.2 * ((period : ℚ) - 1) + max (-c) 0) / period))
    (seedGain, seedLoss)

/-! Helper lemmas. -/

theorem sum_take_mono (l : List ℕ) : ∀ {a b : ℕ}, a ≤ b → (l.take a).sum ≤ (l.take b).sum := by
  induction l with
  | nil => intro a b _; simp
  | cons x xs ih =>
      intro a b hab
      cases a with
      | zero => simp
      | succ a =>
          cases b with
          | zero => omega
          | succ b =>
              simp only [List.take_succ_cons, List.sum_cons]
              exact Nat.add_le_add_left (ih (Nat.succ_le_succ_iff.1 hab)) x

theorem processQueue_length {ε α : Type} (interval : ℕ) :
    ∀ (now : ℕ) (tasks : List (STask ε α)),
      (processQueue interval now tasks).length = tasks.length
  | _, [] => rfl
  | now, _ :: ts => by
      simp [processQueue, processQueue_length interval _ ts]

theorem processQueue_map_outcome {ε α : Type} (interval : ℕ) :
    ∀ (now : ℕ) (tasks : List (STask ε α)),
      (processQueue interval now tasks).map TaskRun.outcome = tasks.map STask.result
  | _, [] => rfl
  | now, _ :: ts => by
      simp [processQueue, processQueue_map_outcome interval _ ts]

theorem processQueue_getElem? {ε α : Type} (interval : ℕ) :
    ∀ (tasks : List (STask ε α)) (now i : ℕ),
      (processQueue interval now tasks)[i]? =
        tasks[i]?.map fun t =>
          ⟨now + ((tasks.take i).map fun s => s.duration + interval).sum,
           now + ((tasks.take i).map fun s => s.duration + interval).sum + t.duration,
           t.result⟩
  | [], now, i => by simp [processQueue]
  | t :: ts, now, 0 => by simp [processQueue]
  | t :: ts, now, i + 1 => by
      have ih := processQueue_getElem? interval ts (now + t.duration + interval) i
      simp only [processQueue, List.getElem?_cons_succ, ih, List.take_succ_cons,
        List.map_cons, List.sum_cons]
      cases h : ts[i]? with
      | none => rfl
      | some u =>
          simp only [Option.map_some', Option.some.injEq, TaskRun.mk.injEq]
          refine ⟨by omega, by omega, trivial⟩

/-! Claim C1. -/

/-- C1: the scheduler runs at most one task at any instant, and task n+1
starts only after task n's outcome is delivered and MIN_INTERVAL has
elapsed; consecutive start times are therefore at least MIN_INTERVAL
apart.  Stated for every pair of executed tasks i < j of any submitted
burst. -/
theorem scheduler_serializes_and_paces {ε α : Type} (tasks : List (STask ε α))
    (i j : ℕ) (ri rj : TaskRun ε α) (hij : i < j)
    (hi : (scheduleAll tasks)[i]? = some ri)
    (hj : (scheduleAll tasks)[j]? = some rj) :
    ri.start ≤ ri.finish ∧ ri.finish + MIN_INTERVAL ≤ rj.start ∧
      ri.start + MIN_INTERVAL ≤ rj.start := by
  unfold scheduleAll at hi hj
  rw [processQueue_getElem? MIN_INTERVAL tasks 0 i] at hi
  rw [processQueue_getElem? MIN_INTERVAL tasks 0 j] at hj
  obtain ⟨ti, hti, hfi⟩ := Option.map_eq_some'.1 hi
  obtain ⟨tj, htj, hfj⟩ := Option.map_eq_some'.1 hj
  have hmono : ((tasks.take (i + 1)).map fun s => s.duration + MIN_INTERVAL).sum ≤
      ((tasks.take j).map fun s => s.duration + MIN_INTERVAL).sum := by
    rw [List.map_take, List.map_take]
    exact sum_take_mono (tasks.map fun s => s.duration + MIN_INTERVAL) hij
  have hstep : ((tasks.take (i + 1)).map fun s => s.duration + MIN_INTERVAL).sum =
      ((tasks.take i).map fun s => s.duration + MIN_INTERVAL).sum +
        (ti.duration + MIN_INTERVAL) := by
    rw [List.take_succ, hti]
    simp
  rw [← hfi, ← hfj]
  refine ⟨by simp, ?_, ?_⟩ <;> simp only [] <;> omega

/-- Witness for C1: three instantly-resolving operations submitted as a
burst; the first two runs start at 0 and 2100 = MIN_INTERVAL. -/
theorem scheduler_serializes_and_paces_witness :
    (0 : ℕ) ≤ 0 ∧ 0 + MIN_INTERVAL ≤ 2100 ∧ 0 + MIN_INTERVAL ≤ 2100 :=
  scheduler_serializes_and_paces
    ([⟨0, Except.ok 1⟩, ⟨0, Except.ok 2⟩, ⟨0, Except.ok 3⟩] : List (STask ℤ ℤ))
    0 1 ⟨0, 0, Except.ok 1⟩ ⟨2100, 2100, Except.ok 2⟩ (by omega) rfl rfl

/-! Claim C4. -/

/-- C4: tasks execute in strict FIFO submission order and every task's
outcome — including an error of a failing operation — is delivered to that
task's own handle: the i-th delivered outcome is exactly the i-th submitted
operation's result, whatever the other operations did. -/
theorem scheduler_fifo_failure_isolation {ε α : Type} (tasks : List (STask ε α)) :
    (scheduleAll tasks).length = tasks.length ∧
    (scheduleAll tasks).map TaskRun.outcome = tasks.map STask.result ∧
    ∀ i : ℕ, ((scheduleAll tasks)[i]?).map TaskRun.outcome =
      (tasks[i]?).map STask.result := by
  refine ⟨processQueue_length MIN_INTERVAL 0 tasks,
    processQueue_map_outcome MIN_INTERVAL 0 tasks, fun i => ?_⟩
  unfold scheduleAll
  rw [processQueue_getElem? MIN_INTERVAL tasks 0 i]
  cases tasks[i]? <;> rfl

/-! EMA lemmas. -/

theorem emaFrom_length (k : ℚ) :
    ∀ (prev : ℚ) (xs : List ℚ), (emaFrom k prev xs).length = xs.length
  | _, [] => rfl
  | prev, x :: xs => by
      simp [emaFrom, emaFrom_length k _ xs]

theorem calculateEMA_length (prices : List ℚ) (p : ℕ) (h : p ≤ prices.length) :
    (calculateEMA prices p).length = prices.length + 1 - p := by
  simp only [calculateEMA, if_neg (not_lt.2 h), List.length_cons, emaFrom_length,
    List.length_drop]
  omega

theorem emaFrom_chain (k : ℚ) (xs : List ℚ) :
    ∀ (prev : ℚ) (i : ℕ) (a b : ℚ),
      (prev :: emaFrom k prev xs)[i]? = some a →
      (prev :: emaFrom k prev xs)[i + 1]? = some b →
      ∃ c, xs[i]? = some c ∧ b = c * k + a * (1 - k) := by
  induction xs with
  | nil =>
      intro prev i a b _ hb
      simp [emaFrom] at hb
  | cons x xs ih =>
      intro prev i a b ha hb
      cases i with
      | zero =>
          simp only [emaFrom, List.getElem?_cons_zero, Option.some.injEq] at ha
          simp only [emaFrom, List.getElem?_cons_succ, List.getElem?_cons_zero,
            Option.some.injEq] at hb
          exact ⟨x, by simp, by rw [← ha, ← hb]⟩
      | succ j =>
          have hstep : (prev :: emaFrom k prev (x :: xs)) =
              prev :: (x * k + prev * (1 - k)) ::
                emaFrom k (x * k + prev * (1 - k)) xs := rfl
          rw [hstep, List.getElem?_cons_succ] at ha hb
          obtain ⟨c, hc, hcb⟩ := ih (x * k + prev * (1 - k)) j a b ha hb
          exact ⟨c, by simpa using hc, hcb⟩

/-! Claim C6. -/

/-- C6: calculateEMA returns the empty sequence when the input is shorter
than the period; otherwise it starts with the arithmetic mean of the first
period values, follows the recurrence next = price * k + previous * (1 - k)
with k = 2/(period+1), and is exactly period - 1 elements shorter than the
input. -/
theorem ema_spec (l : List ℚ) (p : ℕ) (hp : 0 < p) :
    (l.length < p → calculateEMA l p = []) ∧
    (p ≤ l.length →
      (calculateEMA l p).length + (p - 1) = l.length ∧
      (calculateEMA l p).head? = some ((l.take p).sum / p) ∧
      ∀ (i : ℕ) (a b : ℚ), (calculateEMA l p)[i]? = some a →
        (calculateEMA l p)[i + 1]? = some b →
        ∃ c, l[p + i]? = some c ∧
          b = c * (2 / ((p : ℚ) + 1)) + a * (1 - 2 / ((p : ℚ) + 1))) := by
  constructor
  · intro h
    simp [calculateEMA, h]
  · intro h
    refine ⟨by rw [calculateEMA_length l p h]; omega, ?_, ?_⟩
    · simp [calculateEMA, not_lt.2 h]
    · intro i a b ha hb
      simp only [calculateEMA, if_neg (not_lt.2 h)] at ha hb
      obtain ⟨c, hc, hcb⟩ := emaFrom_chain _ _ _ _ _ _ ha hb
      rw [List.getElem?_drop] at hc
      exact ⟨c, hc, hcb⟩

/-- Witness for C6 at period 3: a two-element input yields the empty
sequence, and on a five-element input the length, head and recurrence
facts hold. -/
theorem ema_spec_witness :
    calculateEMA [1, 2] 3 = [] ∧
    (calculateEMA [1, 2, 3, 4, 5] 3).length + (3 - 1) =
      ([1, 2, 3, 4, 5] : List ℚ).length ∧
    (calculateEMA [1, 2, 3, 4, 5] 3).head? =
      some ((([1, 2, 3, 4, 5] : List ℚ).take 3).sum / (3 : ℕ)) := by
  have h1 := (ema_spec [1, 2] 3 (by norm_num)).1 (by norm_num)
  have h2 := (ema_spec [1, 2, 3, 4, 5] 3 (by norm_num)).2 (by norm_num)
  exact ⟨h1, h2.1, h2.2.1⟩

/-! RSI lemmas. -/

theorem foldl_rsiSeed (l : List ℚ) :
    ∀ gl : ℚ × ℚ,
      l.foldl (fun gl c => if 0 < c then (gl.1 + c, gl.2) else (gl.1, gl.2 - c)) gl =
        (gl.1 + (l.map fun c => max c 0).sum, gl.2 + (l.map fun c => max (-c) 0).sum) := by
  induction l with
  | nil => intro gl; simp
  | cons c l ih =>
      intro gl
      simp only [List.foldl_cons, List.map_cons, List.sum_cons, ih]
      rcases lt_or_le 0 c with h | h
      · rw [if_pos h, max_eq_left h.le, max_eq_right (by linarith : -c ≤ 0)]
        simp only [Prod.mk.injEq]
        constructor <;> ring
      · rw [if_neg (not_lt.2 h), max_eq_right h, max_eq_left (by linarith : (0 : ℚ) ≤ -c)]
        simp only [Prod.mk.injEq]
        constructor <;> ring

theorem rsiSeed_eq (l : List ℚ) :
    rsiSeed l = ((l.map fun c => max c 0).sum, (l.map fun c => max (-c) 0).sum) := by
  rw [rsiSeed, foldl_rsiSeed]
  simp

theorem rsiStepGL_eq_spec (period : ℕ) :
    rsiStepGL period = fun gl c =>
      ((gl.1 * ((period : ℚ) - 1) + max c 0) / period,
       (gl.2 * ((period : ℚ) - 1) + max (-c) 0) / period) := by
  funext gl c
  have h1 : (if 0 < c then c else 0) = max c 0 := by
    rcases lt_or_le 0 c with h | h
    · rw [if_pos h, max_eq_left h.le]
    · rw [if_neg (not_lt.2 h), max_eq_right h]
  have h2 : (if c < 0 then -c else 0) = max (-c) 0 := by
    rcases lt_or_le c 0 with h | h
    · rw [if_pos h, max_eq_left (by linarith : (0 : ℚ) ≤ -c)]
    · rw [if_neg (not_lt.2 h), max_eq_right (by linarith : -c ≤ 0)]
  rw [rsiStepGL, h1, h2]

theorem rsiSeed_fst_nonneg (l : List ℚ) : 0 ≤ (rsiSeed l).1 := by
  rw [rsiSeed_eq]
  exact List.sum_nonneg fun x hx => by
    obtain ⟨c, _, rfl⟩ := List.mem_map.1 hx
    exact le_max_right c 0

theorem rsiSeed_snd_nonneg (l : List ℚ) : 0 ≤ (rsiSeed l).2 := by
  rw [rsiSeed_eq]
  exact List.sum_nonneg fun x hx => by
    obtain ⟨c, _, rfl⟩ := List.mem_map.1 hx
    exact le_max_right (-c) 0

theorem rsi_fold_nonneg (cs : List ℚ) :
    ∀ init : ℚ × ℚ, 0 ≤ init.1 → 0 ≤ init.2 →
      0 ≤ (cs.foldl (rsiStepGL 14) init).1 ∧ 0 ≤ (cs.foldl (rsiStepGL 14) init).2 := by
  induction cs with
  | nil => intro init h1 h2; exact ⟨h1, h2⟩
  | cons c cs ih =>
      intro init h1 h2
      rw [List.foldl_cons]
      have ha : (0 : ℚ) ≤ (if 0 < c then c else 0) := by
        by_cases h : 0 < c
        · rw [if_pos h]; exact h.le
        · rw [if_neg h]
      have hb : (0 : ℚ) ≤ (if c < 0 then -c else 0) := by
        by_cases h : c < 0
        · rw [if_pos h]; linarith
        · rw [if_neg h]
      refine ih (rsiStepGL 14 init c) ?_ ?_
      · refine div_nonneg ?_ (by norm_num)
        have h13 : (0 : ℚ) ≤ init.1 * (((14 : ℕ) : ℚ) - 1) :=
          mul_nonneg h1 (by norm_num)
        linarith
      · refine div_nonneg ?_ (by norm_num)
        have h13 : (0 : ℚ) ≤ init.2 * (((14 : ℕ) : ℚ) - 1) :=
          mul_nonneg h2 (by norm_num)
        linarith

theorem rsi_fold_loss_zero (cs : List ℚ) :
    ∀ init : ℚ × ℚ, (∀ c ∈ cs, 0 ≤ c) → init.2 = 0 →
      (cs.foldl (rsiStepGL 14) init).2 = 0 := by
  induction cs with
  | nil => intro init _ h0; exact h0
  | cons c cs ih =>
      intro init hcs h0
      rw [List.foldl_cons]
      refine ih (rsiStepGL 14 init c) (fun d hd => hcs d (List.mem_cons_of_mem c hd)) ?_
      have hc : ¬ c < 0 := not_lt.2 (hcs c (List.mem_cons_self c cs))
      show ((init.2 * ((14 : ℚ) - 1) + (if c < 0 then -c else 0)) / 14) = 0
      rw [if_neg hc, h0]
      norm_num

theorem chain'_zip_tail {R : ℚ → ℚ → Prop} :
    ∀ (l : List ℚ), List.Chain' R l → ∀ p ∈ l.zip l.tail, R p.1 p.2
  | [] => by simp
  | [a] => by simp
  | a :: b :: t => by
      intro h p hp
      rw [List.chain'_cons] at h
      simp only [List.tail_cons, List.zip_cons_cons, List.mem_cons] at hp
      rcases hp with rfl | hp
      · exact h.1
      · exact chain'_zip_tail (b :: t) h.2 p (by simpa using hp)

theorem diffs_nonneg_of_chain (l : List ℚ) (h : List.Chain' (· ≤ ·) l) :
    ∀ c ∈ diffs l, 0 ≤ c := by
  intro c hc
  obtain ⟨p, hp, rfl⟩ := List.mem_map.1 hc
  have := chain'_zip_tail l h p hp
  linarith

theorem roundTo2_nonneg {x : ℚ} (h : 0 ≤ x) : 0 ≤ roundTo2 x := by
  rw [roundTo2]
  refine div_nonneg ?_ (by norm_num)
  have : (0 : ℤ) ≤ round (x * 100) := by
    rw [round_eq]
    refine Int.le_floor.2 ?_
    push_cast
    linarith
  exact_mod_cast this

theorem roundTo2_le_100 {x : ℚ} (h : x < 100) : roundTo2 x ≤ 100 := by
  rw [roundTo2, div_le_iff₀ (by norm_num : (0 : ℚ) < 100)]
  have hz : round (x * 100) ≤ 10000 := by
    rw [round_eq]
    have hlt : ⌊x * 100 + 1 / 2⌋ < 10001 := Int.floor_lt.2 (by push_cast; linarith)
    omega
  have hq : ((round (x * 100) : ℤ) : ℚ) ≤ ((10000 : ℤ) : ℚ) := by exact_mod_cast hz
  push_cast at hq
  linarith

theorem ite_some_total {c : Prop} [Decidable c] (a b : ℚ) :
    ∃ r : ℚ, (if c then some a else some b) = some r := by
  split
  · exact ⟨a, rfl⟩
  · exact ⟨b, rfl⟩

theorem rsi_total (candles : List Candle) (h : 14 < candles.length) :
    ∃ r, calculateRSI candles 14 = some r := by
  simp only [calculateRSI, if_neg (not_le.2 h)]
  exact ite_some_total _ _

/-- Candle with a given close and zero in every other field, used for
concrete witnesses. -/
def closeCandle (x : ℚ) : Candle := ⟨0, 0, 0, 0, x, 0⟩

/-- Fifteen candles with strictly increasing closes 1..15. -/
def incCandles15 : List Candle :=
  [closeCandle 1, closeCandle 2, closeCandle 3, closeCandle 4, closeCandle 5,
   closeCandle 6, closeCandle 7, closeCandle 8, closeCandle 9, closeCandle 10,
   closeCandle 11, closeCandle 12, closeCandle 13, closeCandle 14, closeCandle 15]

/-- Sixteen candles with strictly decreasing closes 20..5. -/
def decCandles16 : List Candle :=
  [closeCandle 20, closeCandle 19, closeCandle 18, closeCandle 17, closeCandle 16,
   closeCandle 15, closeCandle 14, closeCandle 13, closeCandle 12, closeCandle 11,
   closeCandle 10, closeCandle 9, closeCandle 8, closeCandle 7, closeCandle 6,
   closeCandle 5]

/-! Claim C7. -/

/-- C7: the latest-value RSI returns none for every sequence of length at
most the period (14); otherwise its value is determined by the spec-worded
seed and Wilder smoothing of rsiSpecAverages — exactly 100 when the final
smoothed average loss is zero, else the rounded 100 - 100/(1 + gain/loss). -/
theorem rsi_latest_spec (candles : List Candle) :
    (candles.length ≤ 14 → calculateRSI candles 14 = none) ∧
    (14 < candles.length →
      calculateRSI candles 14 =
        if (rsiSpecAverages (candles.map Candle.close) 14).2 = 0 then some 100
        else some (roundTo2 (100 - 100 /
          (1 + (rsiSpecAverages (candles.map Candle.close) 14).1 /
               (rsiSpecAverages (candles.map Candle.close) 14).2)))) := by
  constructor
  · intro h
    simp [calculateRSI, h]
  · intro h
    have hfold : ((diffs (candles.map Candle.close)).drop 14).foldl (rsiStepGL 14)
        ((rsiSeed ((diffs (candles.map Candle.close)).take 14)).1 / ((14 : ℕ) : ℚ),
         (rsiSeed ((diffs (candles.map Candle.close)).take 14)).2 / ((14 : ℕ) : ℚ)) =
        rsiSpecAverages (candles.map Candle.close) 14 := by
      rw [rsiSpecAverages, rsiSeed_eq, rsiStepGL_eq_spec]
    simp only [calculateRSI, if_neg (not_le.2 h)]
    rw [hfold]

/-- Witness for C7: a one-candle input yields none, and for fifteen
increasing closes the value equals the spec-worded computation. -/
theorem rsi_latest_spec_witness :
    calculateRSI [closeCandle 1] 14 = none ∧
    calculateRSI incCandles15 14 =
      (if (rsiSpecAverages (incCandles15.map Candle.close) 14).2 = 0 then some 100
       else some (roundTo2 (100 - 100 /
         (1 + (rsiSpecAverages (incCandles15.map Candle.close) 14).1 /
              (rsiSpecAverages (incCandles15.map Candle.close) 14).2)))) :=
  ⟨(rsi_latest_spec [closeCandle 1]).1 (by decide),
   (rsi_latest_spec incCandles15).2 (by decide)⟩

/-! Claim C8. -/

/-- C8: every number the latest-value RSI returns lies in [0, 100]; on a
monotonically increasing close sequence longer than the period it returns
exactly 100, and on a monotonically decreasing one it returns a
non-negative value. -/
theorem rsi_bounded (candles : List Candle) :
    (∀ r : ℚ, calculateRSI candles 14 = some r → 0 ≤ r ∧ r ≤ 100) ∧
    (14 < candles.length → List.Chain' (· ≤ ·) (candles.map Candle.close) →
      calculateRSI candles 14 = some 100) ∧
    (14 < candles.length →
      List.Chain' (fun a b : ℚ => b ≤ a) (candles.map Candle.close) →
      ∃ r, calculateRSI candles 14 = some r ∧ 0 ≤ r) := by
  have hbound : ∀ r : ℚ, calculateRSI candles 14 = some r → 0 ≤ r ∧ r ≤ 100 := by
    intro r hr
    by_cases h : candles.length ≤ 14
    · simp [calculateRSI, h] at hr
    · simp only [calculateRSI, if_neg h] at hr
      have hnn := rsi_fold_nonneg
        ((diffs (candles.map Candle.close)).drop 14)
        ((rsiSeed ((diffs (candles.map Candle.close)).take 14)).1 / ((14 : ℕ) : ℚ),
         (rsiSeed ((diffs (candles.map Candle.close)).take 14)).2 / ((14 : ℕ) : ℚ))
        (div_nonneg (rsiSeed_fst_nonneg _) (by norm_num))
        (div_nonneg (rsiSeed_snd_nonneg _) (by norm_num))
      set final := ((diffs (candles.map Candle.close)).drop 14).foldl (rsiStepGL 14)
        ((rsiSeed ((diffs (candles.map Candle.close)).take 14)).1 / ((14 : ℕ) : ℚ),
         (rsiSeed ((diffs (candles.map Candle.close)).take 14)).2 / ((14 : ℕ) : ℚ))
        with hfinal
      by_cases hz : final.2 = 0
      · rw [if_pos hz, Option.some.injEq] at hr
        subst hr
        norm_num
      · rw [if_neg hz, Option.some.injEq] at hr
        have hl : 0 < final.2 := lt_of_le_of_ne hnn.2 (Ne.symm hz)
        have hrs : 0 ≤ final.1 / final.2 := div_nonneg hnn.1 hl.le
        have hub : 100 / (1 + final.1 / final.2) ≤ 100 / 1 :=
          div_le_div_of_nonneg_left (by norm_num) (by norm_num) (by linarith)
        have hpos : 0 < 100 / (1 + final.1 / final.2) :=
          div_pos (by norm_num) (by linarith)
        have hx1 : 0 ≤ 100 - 100 / (1 + final.1 / final.2) := by
          rw [div_one] at hub
          linarith
        have hx2 : 100 - 100 / (1 + final.1 / final.2) < 100 := by linarith
        subst hr
        exact ⟨roundTo2_nonneg hx1, roundTo2_le_100 hx2⟩
  refine ⟨hbound, ?_, ?_⟩
  · intro h hchain
    have hcs : ∀ c ∈ diffs (candles.map Candle.close), 0 ≤ c :=
      diffs_nonneg_of_chain _ hchain
    have hseed : (rsiSeed ((diffs (candles.map Candle.close)).take 14)).2 = 0 := by
      rw [rsiSeed_eq]
      refine List.sum_eq_zero ?_
      intro x hx
      obtain ⟨c, hcmem, rfl⟩ := List.mem_map.1 hx
      have hc0 : 0 ≤ c := hcs c (List.mem_of_mem_take hcmem)
      rw [max_eq_right (by linarith : -c ≤ 0)]
    have hzero := rsi_fold_loss_zero ((diffs (candles.map Candle.close)).drop 14)
      ((rsiSeed ((diffs (candles.map Candle.close)).take 14)).1 / ((14 : ℕ) : ℚ),
       (rsiSeed ((diffs (candles.map Candle.close)).take 14)).2 / ((14 : ℕ) : ℚ))
      (fun c hcmem => hcs c (List.mem_of_mem_drop hcmem))
      (by rw [Prod.snd, hseed]; norm_num)
    simp only [calculateRSI, if_neg (not_le.2 h)]
    rw [if_pos hzero]
  · intro h _
    obtain ⟨r, hr⟩ := rsi_total candles h
    exact ⟨r, hr, (hbound r hr).1⟩

/-- Witness for C8: fifteen increasing closes give exactly 100, the bound
theorem applies to that value, and sixteen decreasing closes give a
non-negative value. -/
theorem rsi_bounded_witness :
    calculateRSI incCandles15 14 = some 100 ∧
    (0 ≤ (100 : ℚ) ∧ (100 : ℚ) ≤ 100) ∧
    ∃ r, calculateRSI decCandles16 14 = some r ∧ 0 ≤ r := by
  have h2 := (rsi_bounded incCandles15).2.1 (by decide)
    (by simp [incCandles15, closeCandle, List.chain'_cons]; norm_num)
  have h1 := (rsi_bounded incCandles15).1 100 h2
  have h3 := (rsi_bounded decCandles16).2.2 (by decide)
    (by simp [decCandles16, closeCandle, List.chain'_cons]; norm_num)
  exact ⟨h2, h1, h3⟩

/-! Scanl lemmas for the history series. -/

theorem scanl_ne_nil {β σ : Type} (f : σ → β → σ) (a : σ) (l : List β) :
    List.scanl f a l ≠ [] := by
  cases l <;> simp [List.scanl_nil, List.scanl_cons]

theorem getLast?_scanl {β σ : Type} (f : σ → β → σ) :
    ∀ (l : List β) (a : σ), (List.scanl f a l).getLast? = some (l.foldl f a)
  | [], a => by simp
  | x :: xs, a => by
      rw [List.scanl_cons, List.getLast?_append_of_ne_nil _ (scanl_ne_nil f (f a x) xs),
        getLast?_scanl f xs (f a x)]
      simp

theorem getLast?_map_eq {β γ : Type} (f : β → γ) :
    ∀ l : List β, (l.map f).getLast? = l.getLast?.map f
  | [] => rfl
  | [a] => rfl
  | a :: b :: t => by
      rw [List.map_cons, List.map_cons, List.getLast?_cons_cons,
        List.getLast?_cons_cons, ← List.map_cons]
      exact getLast?_map_eq f (b :: t)

/-- The roundTo2 of the whole number 100 is 100 itself. -/
theorem roundTo2_100 : roundTo2 100 = 100 := by
  have h : ((100 : ℚ) * 100) = ((10000 : ℤ) : ℚ) := by norm_num
  rw [roundTo2, h, round_intCast]
  norm_num

/-! Claim C10. -/

/-- C10: the latest-value RSI and the full-history RSI agree — for every
candle sequence longer than the period, the number calculateRSI returns is
exactly the last entry of calculateRSIHistory rounded to two decimals. -/
theorem rsi_paths_agree (candles : List Candle) (h : 14 < candles.length) :
    ∃ x, (calculateRSIHistory (candles.map Candle.close) 14).getLast? =
        some (some x) ∧
      calculateRSI candles 14 = some (roundTo2 x) := by
  have hmap : ¬ (candles.map Candle.close).length ≤ 14 := by
    rw [List.length_map]; omega
  refine ⟨getRSI
    (((diffs (candles.map Candle.close)).drop 14).foldl (rsiStepGL 14)
      ((rsiSeed ((diffs (candles.map Candle.close)).take 14)).1 / ((14 : ℕ) : ℚ),
       (rsiSeed ((diffs (candles.map Candle.close)).take 14)).2 / ((14 : ℕ) : ℚ))).1
    (((diffs (candles.map Candle.close)).drop 14).foldl (rsiStepGL 14)
      ((rsiSeed ((diffs (candles.map Candle.close)).take 14)).1 / ((14 : ℕ) : ℚ),
       (rsiSeed ((diffs (candles.map Candle.close)).take 14)).2 / ((14 : ℕ) : ℚ))).2,
    ?_, ?_⟩
  · simp only [calculateRSIHistory, if_neg hmap]
    rw [List.getLast?_append_of_ne_nil _
      (by
        intro hnil
        exact scanl_ne_nil (rsiStepGL 14) _ _ (List.map_eq_nil_iff.1 hnil)),
      getLast?_map_eq, getLast?_scanl]
    rfl
  · simp only [calculateRSI, if_neg (not_le.2 h)]
    set final := ((diffs (candles.map Candle.close)).drop 14).foldl (rsiStepGL 14)
      ((rsiSeed ((diffs (candles.map Candle.close)).take 14)).1 / ((14 : ℕ) : ℚ),
       (rsiSeed ((diffs (candles.map Candle.close)).take 14)).2 / ((14 : ℕ) : ℚ))
      with hfinal
    by_cases hz : final.2 = 0
    · rw [if_pos hz, getRSI, if_pos hz, roundTo2_100]
    · rw [if_neg hz, getRSI, if_neg hz]

/-- Witness for C10 at fifteen increasing closes. -/
theorem rsi_paths_agree_witness :
    ∃ x, (calculateRSIHistory (incCandles15.map Candle.close) 14).getLast? =
        some (some x) ∧
      calculateRSI incCandles15 14 = some (roundTo2 x) :=
  rsi_paths_agree incCandles15 (by decide)

/-! Claim C3. -/

/-- C3: the latest-value MACD is none for every candle sequence shorter
than slow + signalPeriod = 35 at the defaults (12, 26, 9), and is a defined
result — with its histogram field — at exactly the threshold length. -/
theorem macd_threshold (candles : List Candle) :
    (candles.length < 35 → calculateMACD candles 12 26 9 = none) ∧
    (candles.length = 35 → ∃ r, calculateMACD candles 12 26 9 = some r) := by
  constructor
  · intro h
    have hp : (candles.map Candle.close).length < 26 + 9 := by
      rw [List.length_map]; omega
    simp only [calculateMACD]
    rw [if_pos hp]
  · intro h
    have hp : (candles.map Candle.close).length = 35 := by
      rw [List.length_map]; omega
    have hFast : (calculateEMA (candles.map Candle.close) 12).length = 24 := by
      rw [calculateEMA_length _ _ (by omega), hp]
    have hSlow : (calculateEMA (candles.map Candle.close) 26).length = 10 := by
      rw [calculateEMA_length _ _ (by omega), hp]
    have hmlv : (List.zipWith (fun f s => f - s)
        ((calculateEMA (candles.map Candle.close) 12).drop (26 - 12))
        (calculateEMA (candles.map Candle.close) 26)).length = 10 := by
      rw [List.length_zipWith, List.length_drop, hFast, hSlow]
      omega
    have hne : (List.zipWith (fun f s => f - s)
        ((calculateEMA (candles.map Candle.close) 12).drop (26 - 12))
        (calculateEMA (candles.map Candle.close) 26)) ≠ [] := by
      intro h0
      rw [h0] at hmlv
      simp at hmlv
    have hsig : (calculateEMA (List.zipWith (fun f s => f - s)
        ((calculateEMA (candles.map Candle.close) 12).drop (26 - 12))
        (calculateEMA (candles.map Candle.close) 26)) 9).length = 2 := by
      rw [calculateEMA_length _ _ (by omega), hmlv]
    have hsigne : (calculateEMA (List.zipWith (fun f s => f - s)
        ((calculateEMA (candles.map Candle.close) 12).drop (26 - 12))
        (calculateEMA (candles.map Candle.close) 26)) 9) ≠ [] := by
      intro h0
      rw [h0] at hsig
      simp at hsig
    obtain ⟨lm, hlm⟩ := Option.isSome_iff_exists.1 (List.getLast?_isSome.2 hne)
    obtain ⟨ls, hls⟩ := Option.isSome_iff_exists.1 (List.getLast?_isSome.2 hsigne)
    refine ⟨⟨roundTo2 lm, roundTo2 ls, roundTo2 (lm - ls)⟩, ?_⟩
    simp only [calculateMACD, if_neg (by omega : ¬ (candles.map Candle.close).length < 26 + 9),
      if_neg (by rw [hmlv]; omega : ¬ (List.zipWith (fun f s => f - s)
        ((calculateEMA (candles.map Candle.close) 12).drop (26 - 12))
        (calculateEMA (candles.map Candle.close) 26)).length < 9)]
    rw [hlm, hls]

/-- Thirty-four candles with closes 1..34. -/
def candles34 : List Candle := (List.range 34).map fun i => closeCandle ((i : ℚ) + 1)

/-- Thirty-five candles with closes 1..35. -/
def candles35 : List Candle := (List.range 35).map fun i => closeCandle ((i : ℚ) + 1)

/-- Witness for C3: none at 34 candles, defined at 35 candles. -/
theorem macd_threshold_witness :
    calculateMACD candles34 12 26 9 = none ∧
    ∃ r, calculateMACD candles35 12 26 9 = some r :=
  ⟨(macd_threshold candles34).1 (by decide),
   (macd_threshold candles35).2 (by decide)⟩

/-! Claim C2. -/

/-- First bar of the engineered three-bar pattern input. -/
def barA : Candle := ⟨0, 100, 101, 99, 100, 0⟩

/-- Second bar: down bar with open 100 and close 90, as the claim states. -/
def barB : Candle := ⟨0, 100, 101, 89, 90, 0⟩

/-- Third bar exactly as the claim states it: open 90, close 110. -/
def barC : Candle := ⟨0, 90, 111, 89, 110, 0⟩

/-- Third bar amended: open 89, strictly below the previous close of 90. -/
def barCamended : Candle := ⟨0, 89, 111, 88, 110, 0⟩

/-- C2 counterexample: with bar 1 open=100 close=90 and bar 2 open=90
close=110, the engulfing test candle.open < prev.close is 90 < 90 and
fails, so the detector emits no mark at all — in particular no Bullish
Engulfing mark at index 2, contradicting the claim. -/
theorem bullish_engulfing_boundary_counterexample :
    detectCandlestickPatterns [barA, barB, barC] = [] := by
  have h3 : List.range 3 = [0, 1, 2] := rfl
  simp only [detectCandlestickPatterns, List.length_cons, List.length_nil, h3]
  rw [if_neg (by norm_num)]
  simp only [List.flatMap_cons, List.flatMap_nil, patternsAt, barA, barB, barC]
  norm_num

/-- C2 amended: when bar 2 opens strictly below bar 1's close (open=89,
close=110 against open=100, close=90), the detector emits exactly one
Bullish Engulfing mark, at index 2 with anchor Bottom. -/
theorem bullish_engulfing_amended :
    detectCandlestickPatterns [barA, barB, barCamended] =
      [⟨2, PatternKind.bullishEngulfing, AnchorPos.bottom⟩] := by
  have h3 : List.range 3 = [0, 1, 2] := rfl
  simp only [detectCandlestickPatterns, List.length_cons, List.length_nil, h3]
  rw [if_neg (by norm_num)]
  simp only [List.flatMap_cons, List.flatMap_nil, patternsAt, barA, barB, barCamended]
  norm_num

/-! Series-shape lemmas for the full-history indicator series. -/

/-- Shape of a left-padded indicator series: total length n, the first k
entries null, every later entry a defined value. -/
def seriesShape (s : List (Option ℚ)) (n k : ℕ) : Prop :=
  s.length = n ∧ (∀ i, i < k → s[i]? = some none) ∧
  ∀ i, k ≤ i → i < n → ∃ x : ℚ, s[i]? = some (some x)

theorem seriesShape_pad (M : List ℚ) (k n : ℕ) (hlen : k + M.length = n) :
    seriesShape (List.replicate k (none : Option ℚ) ++ M.map some) n k := by
  refine ⟨?_, ?_, ?_⟩
  · simp only [List.length_append, List.length_replicate, List.length_map]
    omega
  · intro i hi
    rw [List.getElem?_append_left (by simpa using hi)]
    simp [List.getElem?_replicate, hi]
  · intro i hk hn
    rw [List.getElem?_append_right (by simpa using hk)]
    simp only [List.length_replicate]
    cases hMx : M[i - k]? with
    | none =>
        rw [List.getElem?_eq_none_iff] at hMx
        omega
    | some x =>
        refine ⟨x, ?_⟩
        rw [List.getElem?_map, hMx]
        rfl

theorem diffs_length (l : List ℚ) : (diffs l).length = l.length - 1 := by
  simp only [diffs, List.length_map, List.length_zip, List.length_tail]
  omega

theorem rsiHistory_shape (prices : List ℚ) (h : 14 < prices.length) :
    seriesShape (calculateRSIHistory prices 14) prices.length 14 := by
  simp only [calculateRSIHistory, if_neg (not_le.2 h)]
  have hmap : (((diffs prices).drop 14).scanl (rsiStepGL 14)
        ((rsiSeed ((diffs prices).take 14)).1 / ((14 : ℕ) : ℚ),
         (rsiSeed ((diffs prices).take 14)).2 / ((14 : ℕ) : ℚ))).map
          (fun gl => some (getRSI gl.1 gl.2)) =
      ((((diffs prices).drop 14).scanl (rsiStepGL 14)
        ((rsiSeed ((diffs prices).take 14)).1 / ((14 : ℕ) : ℚ),
         (rsiSeed ((diffs prices).take 14)).2 / ((14 : ℕ) : ℚ))).map
          (fun gl => getRSI gl.1 gl.2)).map some := by
    rw [List.map_map]
    rfl
  rw [hmap]
  apply seriesShape_pad
  simp only [List.length_map, List.length_scanl, List.length_drop, diffs_length]
  omega

theorem macdHistory_shape (prices : List ℚ) (h : 35 ≤ prices.length) :
    seriesShape (calculateMACDHistory prices 12 26 9).macdLine prices.length 25 ∧
    seriesShape (calculateMACDHistory prices 12 26 9).signalLine prices.length 33 ∧
    seriesShape (calculateMACDHistory prices 12 26 9).histogram prices.length 33 := by
  have hFast : (calculateEMA prices 12).length = prices.length + 1 - 12 :=
    calculateEMA_length _ _ (by omega)
  have hSlow : (calculateEMA prices 26).length = prices.length + 1 - 26 :=
    calculateEMA_length _ _ (by omega)
  have hmlv : (List.zipWith (fun f s => f - s)
      ((calculateEMA prices 12).drop (26 - 12)) (calculateEMA prices 26)).length =
      prices.length - 25 := by
    rw [List.length_zipWith, List.length_drop, hFast, hSlow]
    omega
  have hsig : (calculateEMA (List.zipWith (fun f s => f - s)
      ((calculateEMA prices 12).drop (26 - 12)) (calculateEMA prices 26)) 9).length =
      prices.length - 33 := by
    rw [calculateEMA_length _ _ (by rw [hmlv]; omega), hmlv]
    omega
  have hhist : (List.zipWith (fun m s => m - s)
      ((List.zipWith (fun f s => f - s)
        ((calculateEMA prices 12).drop (26 - 12)) (calculateEMA prices 26)).drop (9 - 1))
      (calculateEMA (List.zipWith (fun f s => f - s)
        ((calculateEMA prices 12).drop (26 - 12)) (calculateEMA prices 26)) 9)).length =
      prices.length - 33 := by
    rw [List.length_zipWith, List.length_drop, hmlv, hsig]
    omega
  simp only [calculateMACDHistory]
  refine ⟨?_, ?_, ?_⟩ <;> apply seriesShape_pad
  · rw [List.length_zipWith, List.length_drop, hFast, hSlow]
    omega
  · rw [hsig]
    omega
  · rw [hhist]
    omega

theorem smaSteps_length (p : ℚ) :
    ∀ (s : ℚ) (l : List (ℚ × ℚ)), (smaSteps p s l).length = l.length
  | _, [] => rfl
  | s, (a, b) :: xs => by
      simp [smaSteps, smaSteps_length p _ xs]

theorem sma_shape (data : List ℚ) (h : 20 ≤ data.length) :
    seriesShape (calculateSMA data 20) data.length 19 := by
  simp only [calculateSMA, if_neg (not_lt.2 h)]
  have hcons : (some ((data.take 20).sum / ((20 : ℕ) : ℚ)) ::
      (smaSteps ((20 : ℕ) : ℚ) ((data.take 20).sum) (data.zip (data.drop 20))).map some) =
      (((data.take 20).sum / ((20 : ℕ) : ℚ)) ::
        smaSteps ((20 : ℕ) : ℚ) ((data.take 20).sum) (data.zip (data.drop 20))).map some :=
    rfl
  rw [hcons]
  apply seriesShape_pad
  simp only [List.length_cons, smaSteps_length, List.length_zip, List.length_drop]
  omega

/-! Claim C5. -/

/-- C5 counterexample: on a single-bar input the facade's RSI series is
empty (the 35-bar gate), so its length 0 differs from the input bar
count 1, contradicting the claim for that input. -/
theorem facade_gate_counterexample :
    (indicatorFacade [default]).rsiHistory.length = 0 ∧
      ([default] : List Candle).length = 1 := by
  constructor
  · simp [indicatorFacade]
  · rfl

/-- C5 amended: for every bar sequence of at least 35 bars (the facade's
gate), each full-history series — RSI, MACD line, signal line, histogram,
volume SMA — has length equal to the bar count, null entries before its
lookback (14, 25, 33, 33, 19 bars respectively) and defined entries from
the lookback onwards; below the gate all series are empty. -/
theorem facade_series_shapes (candles : List Candle) (h : 35 ≤ candles.length) :
    seriesShape (indicatorFacade candles).rsiHistory candles.length 14 ∧
    seriesShape (indicatorFacade candles).macdHistory.macdLine candles.length 25 ∧
    seriesShape (indicatorFacade candles).macdHistory.signalLine candles.length 33 ∧
    seriesShape (indicatorFacade candles).macdHistory.histogram candles.length 33 ∧
    seriesShape (indicatorFacade candles).volumeSma candles.length 19 := by
  have hmapc : (candles.map Candle.close).length = candles.length := by
    rw [List.length_map]
  have hmapv : (candles.map Candle.volume).length = candles.length := by
    rw [List.length_map]
  simp only [indicatorFacade, if_neg (not_lt.2 h)]
  have hrsi := rsiHistory_shape (candles.map Candle.close) (by omega)
  have hmacd := macdHistory_shape (candles.map Candle.close) (by omega)
  have hsma := sma_shape (candles.map Candle.volume) (by omega)
  rw [hmapc] at hrsi hmacd
  rw [hmapv] at hsma
  exact ⟨hrsi, hmacd.1, hmacd.2.1, hmacd.2.2, hsma⟩

/-- Witness for C5's amended theorem at 35 constant candles. -/
theorem facade_series_shapes_witness :
    seriesShape (indicatorFacade candles35).rsiHistory candles35.length 14 ∧
    seriesShape (indicatorFacade candles35).macdHistory.macdLine candles35.length 25 ∧
    seriesShape (indicatorFacade candles35).macdHistory.signalLine candles35.length 33 ∧
    seriesShape (indicatorFacade candles35).macdHistory.histogram candles35.length 33 ∧
    seriesShape (indicatorFacade candles35).volumeSma candles35.length 19 :=
  facade_series_shapes candles35 (by decide)

/-! Crossover lemmas. -/

theorem rangeMap_getElem? (f : ℕ → Option ℚ) (n j : ℕ) :
    ((List.range n).map f)[j]? = if j < n then some (f j) else none := by
  rw [List.getElem?_map]
  by_cases hj : j < n
  · rw [if_pos hj, List.getElem?_range hj]
    rfl
  · rw [if_neg hj, List.getElem?_eq_none_iff.2 (by simpa using not_lt.1 hj)]
    rfl

theorem jsGet_some_lt (l : List (Option ℚ)) (i : ℕ) (x : ℚ)
    (h : jsGet l i = some x) : i < l.length := by
  by_contra hlt
  rw [jsGet, List.getElem?_eq_none_iff.2 (by omega)] at h
  simp at h

theorem buySignalAt_iff (prices : List ℚ) (mh : MACDHistory) (i : ℕ) :
    (∃ p, buySignalAt prices mh (i + 1) = some p) ↔
      ∃ pm cm ps qs : ℚ,
        jsGet mh.macdLine i = some pm ∧ jsGet mh.macdLine (i + 1) = some cm ∧
        jsGet mh.signalLine i = some ps ∧ jsGet mh.signalLine (i + 1) = some qs ∧
        pm ≤ ps ∧ qs < cm := by
  rw [buySignalAt, if_neg (Nat.succ_ne_zero i), Nat.add_sub_cancel]
  rcases hpm : jsGet mh.macdLine i with _ | pm <;>
    rcases hcm : jsGet mh.macdLine (i + 1) with _ | cm <;>
      rcases hps : jsGet mh.signalLine i with _ | ps <;>
        rcases hqs : jsGet mh.signalLine (i + 1) with _ | qs <;>
          simp [Option.ite_none_right_eq_some]

theorem sellSignalAt_iff (prices : List ℚ) (mh : MACDHistory) (i : ℕ) :
    (∃ p, sellSignalAt prices mh (i + 1) = some p) ↔
      ∃ pm cm ps qs : ℚ,
        jsGet mh.macdLine i = some pm ∧ jsGet mh.macdLine (i + 1) = some cm ∧
        jsGet mh.signalLine i = some ps ∧ jsGet mh.signalLine (i + 1) = some qs ∧
        ps ≤ pm ∧ cm < qs := by
  rw [sellSignalAt, if_neg (Nat.succ_ne_zero i), Nat.add_sub_cancel]
  rcases hpm : jsGet mh.macdLine i with _ | pm <;>
    rcases hcm : jsGet mh.macdLine (i + 1) with _ | cm <;>
      rcases hps : jsGet mh.signalLine i with _ | ps <;>
        rcases hqs : jsGet mh.signalLine (i + 1) with _ | qs <;>
          simp [Option.ite_none_right_eq_some]

/-! Claim C9. -/

/-- C9: a bullish crossover marker is emitted at index i+1 iff the MACD
line and signal line are both defined at i and i+1, the MACD line was ≤
the signal line at i, and is > the signal line at i+1; the bearish marker
is the mirror condition; a missing value suppresses the marker, and no
marker is ever emitted at index 0. -/
theorem crossover_markers (candles : List Candle) (i : ℕ) :
    ((∃ p, (indicatorFacade candles).buySignals[i + 1]? = some (some p)) ↔
      (∃ pm cm ps qs : ℚ,
        jsGet (indicatorFacade candles).macdHistory.macdLine i = some pm ∧
        jsGet (indicatorFacade candles).macdHistory.macdLine (i + 1) = some cm ∧
        jsGet (indicatorFacade candles).macdHistory.signalLine i = some ps ∧
        jsGet (indicatorFacade candles).macdHistory.signalLine (i + 1) = some qs ∧
        pm ≤ ps ∧ qs < cm)) ∧
    ((∃ p, (indicatorFacade candles).sellSignals[i + 1]? = some (some p)) ↔
      (∃ pm cm ps qs : ℚ,
        jsGet (indicatorFacade candles).macdHistory.macdLine i = some pm ∧
        jsGet (indicatorFacade candles).macdHistory.macdLine (i + 1) = some cm ∧
        jsGet (indicatorFacade candles).macdHistory.signalLine i = some ps ∧
        jsGet (indicatorFacade candles).macdHistory.signalLine (i + 1) = some qs ∧
        ps ≤ pm ∧ cm < qs)) ∧
    (¬ ∃ p, (indicatorFacade candles).buySignals[0]? = some (some p)) ∧
    (¬ ∃ p, (indicatorFacade candles).sellSignals[0]? = some (some p)) := by
  by_cases h35 : candles.length < 35
  · simp only [indicatorFacade, if_pos h35]
    simp [jsGet]
  · have hlen : (candles.map Candle.close).length = candles.length := by
      rw [List.length_map]
    have hMH := macdHistory_shape (candles.map Candle.close) (by omega)
    simp only [indicatorFacade, if_neg h35]
    refine ⟨?_, ?_, ?_, ?_⟩
    · rw [rangeMap_getElem?]
      by_cases hj : i + 1 < (candles.map Candle.close).length
      · rw [if_pos hj]
        simp only [Option.some.injEq]
        exact buySignalAt_iff _ _ i
      · rw [if_neg hj]
        constructor
        · rintro ⟨p, hp⟩
          exact absurd hp (by simp)
        · rintro ⟨pm, cm, ps, qs, _, h2, _⟩
          have hlt := jsGet_some_lt _ _ _ h2
          rw [hMH.1.1] at hlt
          exact absurd hlt hj
    · rw [rangeMap_getElem?]
      by_cases hj : i + 1 < (candles.map Candle.close).length
      · rw [if_pos hj]
        simp only [Option.some.injEq]
        exact sellSignalAt_iff _ _ i
      · rw [if_neg hj]
        constructor
        · rintro ⟨p, hp⟩
          exact absurd hp (by simp)
        · rintro ⟨pm, cm, ps, qs, _, h2, _⟩
          have hlt := jsGet_some_lt _ _ _ h2
          rw [hMH.1.1] at hlt
          exact absurd hlt hj
    · rw [rangeMap_getElem?, if_pos (by omega : 0 < (candles.map Candle.close).length)]
      rintro ⟨p, hp⟩
      simp only [Option.some.injEq] at hp
      rw [buySignalAt, if_pos rfl] at hp
      exact Option.noConfusion hp
    · rw [rangeMap_getElem?, if_pos (by omega : 0 < (candles.map Candle.close).length)]
      rintro ⟨p, hp⟩
      simp only [Option.some.injEq] at hp
      rw [sellSignalAt, if_pos rfl] at hp
      exact Option.noConfusion hp
